import Mathlib

/-!
# QueryAP backend (`src/backend/main.go`): upload, query and the two API clients

A shallow embedding of the two gin handlers `uploadHandler` and `queryHandler` and of the two
clients `queryANNOqAPI` and `queryPANTHERAPI`.

Library behaviour the handlers rely on is modelled next to the place where the source calls it:

* `encoding/csv`: `csv.NewReader` and `(*Reader).Read` with the default settings
  (`Comma = ','`, no comment character, `LazyQuotes = false`, `TrimLeadingSpace = false`,
  `FieldsPerRecord = 0`);
* `gin.Context`: `FormFile`, `Set`, `Get`, `JSON`, and the fact that the engine hands every
  request a context whose `Keys` are reset;
* `net/http` and `encoding/json`: taken as parameters of the model (`Env`), the outside world
  being an arbitrary state machine.
-/

set_option autoImplicit false

namespace QueryAP

/-! ## `encoding/csv` -/

namespace csv

/-- Causes of a `ParseError` that can arise with the default reader settings. -/
inductive Cause where
  | ErrBareQuote
  | ErrQuote
  | ErrFieldCount
  deriving DecidableEq, Repr

/-- Errors that `Read` can return: `io.EOF`, or a `ParseError` with its cause `Err`. -/
inductive Error where
  | EOF
  | ParseError (Err : Cause)
  deriving DecidableEq, Repr

/-- Lines in the order successive `readLine` calls return them. `acc` holds, reversed, the bytes
of the current line read so far. A line keeps its final `\n`; `\r\n` at the end of a line is
normalised to `\n`, and a trailing `\r` right before the end of the input is dropped. -/
def readLines : List Char → List Char → List (List Char)
  | acc, [] =>
    match acc with
    | [] => []
    | '\r' :: acc => [acc.reverse]
    | acc => [acc.reverse]
  | acc, c :: rest =>
    if c = '\n' then
      match acc with
      | '\r' :: acc => (acc.reverse ++ ['\n']) :: readLines [] rest
      | acc => (acc.reverse ++ ['\n']) :: readLines [] rest
    else readLines (c :: acc) rest

/-- Position of the field scanner inside a line: at the start of a field, inside a non-quoted
field, or inside a quoted field. The argument is the field text collected so far. -/
inductive Mode where
  | start
  | bare (buf : List Char)
  | quoted (buf : List Char)
  deriving DecidableEq, Repr

/-- Result of scanning one line: the record is complete (with its fields and the parse error, if
any), or the line ended inside a quoted field and the next line is needed. -/
inductive LineResult where
  | done (fields : List String) (err : Option Cause)
  | more (fields : List String) (buf : List Char)
  deriving DecidableEq, Repr

/-- The `parseField` loop of `readRecord`, run over the bytes of one line. -/
def scanLine : List String → Mode → List Char → LineResult
  -- non-quoted field that runs to the end of the input
  | fields, .start, [] => .done (fields ++ [""]) none
  | fields, .bare buf, [] => .done (fields ++ [String.mk buf]) none
  -- the line ended inside a quoted field
  | fields, .quoted buf, [] => .more fields buf
  | fields, .start, c :: cs =>
    if c = '"' then scanLine fields (.quoted []) cs
    else if c = ',' then scanLine (fields ++ [""]) .start cs
    else if c = '\n' ∧ cs = [] then .done (fields ++ [""]) none
    else scanLine fields (.bare [c]) cs
  | fields, .bare buf, c :: cs =>
    if c = ',' then scanLine (fields ++ [String.mk buf]) .start cs
    else if c = '"' then .done fields (some .ErrBareQuote)
    else if c = '\n' ∧ cs = [] then .done (fields ++ [String.mk buf]) none
    else scanLine fields (.bare (buf ++ [c])) cs
  | fields, .quoted buf, c :: cs =>
    if c = '"' then
      match cs with
      | [] => .done (fields ++ [String.mk buf]) none
      | d :: ds =>
        if d = '"' then scanLine fields (.quoted (buf ++ ['"'])) ds
        else if d = ',' then scanLine (fields ++ [String.mk buf]) .start ds
        else if d = '\n' ∧ ds = [] then .done (fields ++ [String.mk buf]) none
        else .done fields (some .ErrQuote)
    else scanLine fields (.quoted (buf ++ [c])) cs

/-- What `readRecord` yields for one record before the field count is checked: the fields split
so far and the parse error, if any. -/
structure RawRecord where
  fields : List String
  err : Option Cause
  deriving DecidableEq, Repr

/-- The records `readRecord` splits off the remaining lines, in order. The first argument is the
quoted field still open from the previous line, if any. Empty lines between records are skipped; a
quoted field still open at the end of the input is `ErrQuote`. -/
def splitRecords : Option (List String × List Char) → List (List Char) → List RawRecord
  | none, [] => []
  | some (fields, _), [] => [⟨fields, some .ErrQuote⟩]
  | none, line :: lines =>
    if line = [] ∨ line = ['\n'] then splitRecords none lines
    else
      match scanLine [] .start line with
      | .done fields err => ⟨fields, err⟩ :: splitRecords none lines
      | .more fields buf => splitRecords (some (fields, buf)) lines
  | some (fields, buf), line :: lines =>
    match scanLine fields (.quoted buf) line with
    | .done fields err => ⟨fields, err⟩ :: splitRecords none lines
    | .more fields buf => splitRecords (some (fields, buf)) lines

/-- State of a `csv.Reader`: the records still to be split off the input, and
`FieldsPerRecord`. -/
structure Reader where
  pending : List RawRecord
  FieldsPerRecord : Int
  deriving DecidableEq, Repr

/-- Model of `csv.NewReader(f)`: a reader over the bytes of `f` with `FieldsPerRecord = 0`. -/
def NewReader (f : String) : Reader :=
  ⟨splitRecords none (readLines [] f.data), 0⟩

/-- Model of `r.Read()`: the next record and error. At the end of the input the error is `io.EOF`. If
`FieldsPerRecord` is positive, a record that split without error but has another number of
fields gets `ErrFieldCount`; if it is `0`, it is set to the number of fields of this record. -/
def Reader.Read (r : Reader) : (List String × Option Error) × Reader :=
  match r.pending with
  | [] => (([], some .EOF), r)
  | raw :: rest =>
    if 0 < r.FieldsPerRecord then
      if (raw.fields.length : Int) ≠ r.FieldsPerRecord ∧ raw.err = none then
        ((raw.fields, some (.ParseError .ErrFieldCount)), ⟨rest, r.FieldsPerRecord⟩)
      else ((raw.fields, raw.err.map .ParseError), ⟨rest, r.FieldsPerRecord⟩)
    else if r.FieldsPerRecord = 0 then
      ((raw.fields, raw.err.map .ParseError), ⟨rest, raw.fields.length⟩)
    else ((raw.fields, raw.err.map .ParseError), ⟨rest, r.FieldsPerRecord⟩)

/-- Result of the call of `Read` number `k` (from `0`) on the reader. -/
def Reader.nthRead (r : Reader) : Nat → List String × Option Error
  | 0 => r.Read.1
  | k + 1 => r.Read.2.nthRead k

end csv

/-! ## `gin.Context` -/

/-- One combined record, `map[string]string` with the keys `GeneID`, `Annotation` and
`AdditionalInfo` (main.go:114-118). -/
structure CombinedResult where
  GeneID : String
  Annotation : String
  AdditionalInfo : String
  deriving DecidableEq, Repr

/-- The JSON values the handlers pass to `c.JSON`. -/
inductive JSONBody where
  /-- A `gin.H` with the single key `error`. -/
  | error (msg : String)
  /-- A `gin.H` with the keys `message` and `genes` (main.go:84). -/
  | uploaded (message : String) (genes : List String)
  /-- The `results` slice (main.go:124). -/
  | results (rs : List CombinedResult)
  deriving DecidableEq, Repr

/-- One call of `c.JSON(status, body)`. -/
structure Response where
  status : Nat
  body : JSONBody
  deriving DecidableEq, Repr

/-- A `*multipart.FileHeader`: `content` is what `Open` gives to read, `none` when `Open`
returns an error. -/
structure FileHeader where
  content : Option String
  deriving DecidableEq, Repr

/-- The parts of a `*gin.Context` the handlers touch: the uploaded form file `file` of the
request (`none` when `c.FormFile("file")` returns an error), the `Keys` map (the program only
ever stores `[]string` values), the responses written with `c.JSON` in order, and whether the
handler ended in a Go panic. -/
structure Context where
  formFile : Option FileHeader
  Keys : List (String × List String)
  written : List Response
  panicked : Bool
  deriving DecidableEq, Repr

/-- Model of `c.Set(key, value)`: the entry of `key` is replaced. -/
def Context.Set (c : Context) (key : String) (value : List String) : Context :=
  { c with Keys := (key, value) :: c.Keys.filter (fun kv => kv.1 ≠ key) }

/-- Model of `c.Get(key)`: the value and whether it exists, as an `Option`. -/
def Context.Get (c : Context) (key : String) : Option (List String) :=
  c.Keys.lookup key

/-- Model of `c.JSON(status, body)`: one more response is written. -/
def Context.JSON (c : Context) (status : Nat) (body : JSONBody) : Context :=
  { c with written := c.written ++ [⟨status, body⟩] }

/-! ## `uploadHandler` (main.go:45-85) -/

/-- How the row loop of `uploadHandler` ends. -/
inductive RowsResult where
  /-- The call of `Read` returned `io.EOF`: the loop breaks with the genes collected. -/
  | eof (genes : List String)
  /-- The call of `Read` returned another error: the handler answers 500 and returns. -/
  | failed
  /-- Indexing `record[0]` on a record without fields. -/
  | indexPanic
  /-- The fuel of the model ran out before the loop ended. -/
  | outOfFuel
  deriving DecidableEq, Repr

/-- The `for` loop of main.go:68-79, one iteration per unit of fuel. -/
def uploadHandler.rows : Nat → csv.Reader → List String → RowsResult
  | 0, _, _ => .outOfFuel
  | fuel + 1, r, genes =>
    match r.Read with
    | ((_, some .EOF), _) => .eof genes
    | ((_, some _), _) => .failed
    | ((record, none), r) =>
      match record with
      | [] => .indexPanic
      | gene :: _ => uploadHandler.rows fuel r (genes ++ [gene])

/-- The handler `uploadHandler`. The loop gets one unit of fuel per pending record and one for
the final `io.EOF`, which is always enough: the loop never runs out of fuel
(`uploadHandler.rows_terminates`) and, on the records the reader splits, never indexes an empty
record (`uploadHandler_responds_once`). -/
def uploadHandler (c : Context) : Context :=
  match c.formFile with
  | none => c.JSON 400 (.error "Invalid file")
  | some file =>
    match file.content with
    | none => c.JSON 500 (.error "Unable to open file")
    | some f =>
      let r := csv.NewReader f
      -- Skip the header if present: the record and the error are both dropped
      let r := r.Read.2
      match uploadHandler.rows (r.pending.length + 1) r [] with
      | .eof genes =>
        (c.Set "genes" genes).JSON 200 (.uploaded "File uploaded successfully" genes)
      | .failed => c.JSON 500 (.error "Failed to read CSV file")
      | .indexPanic => { c with panicked := true }
      | .outOfFuel => c

/-! ## The outside world: `net/http` and `encoding/json` -/

/-- Decoded answer of the ANNOq API (main.go:17-21). -/
structure ANNOqResponse where
  GeneID : String
  Annotation : String
  deriving DecidableEq, Repr

/-- Decoded answer of the PANTHER API (main.go:23-27). -/
structure PANTHERResponse where
  GeneID : String
  AdditionalInfo : String
  deriving DecidableEq, Repr

/-- The parts of an `*http.Response` the clients look at. -/
structure HttpResponse where
  StatusCode : Nat
  Body : String
  deriving DecidableEq, Repr

/-- The three ways a client returns a non-nil `error`: the error of `http.Get`, the status
error made with `fmt.Errorf`, and the error of the JSON decoder. -/
inductive ClientError where
  | network (msg : String)
  | status
  | decode
  deriving DecidableEq, Repr

/-- The environment of the program. `Get url w` is `http.Get(url)` issued when the world is in
state `w`: it returns the response or the error, and the next state of the world. `decodeANNOq`
and `decodePANTHER` are `json.NewDecoder(resp.Body).Decode` into the two response structs,
`none` when the decoder returns an error. -/
structure Env (W : Type) where
  Get : String → W → Except String HttpResponse × W
  decodeANNOq : String → Option ANNOqResponse
  decodePANTHER : String → Option PANTHERResponse

/-- What the program does to an HTTP exchange: it issues the request, reads the body of the
response, closes the body. -/
inductive HttpEvent where
  | get (url : String)
  | read (url : String)
  | close (url : String)
  deriving DecidableEq, Repr

/-- One completed call of a client, with its argument and what it returned. -/
inductive Call where
  | annoq (geneID : String) (out : Except ClientError ANNOqResponse)
  | panther (geneID : String) (out : Except ClientError PANTHERResponse)

/-- State threaded through the clients: the state of the outside world, and two logs kept for
the specification, the HTTP events and the completed client calls, both oldest first. -/
structure Net (W : Type) where
  world : W
  http : List HttpEvent
  calls : List Call

variable {W : Type}

/-- The call `http.Get(url)`, logged. -/
def Net.Get (env : Env W) (url : String) (s : Net W) : Except String HttpResponse × Net W :=
  ((env.Get url s.world).1,
    { s with world := (env.Get url s.world).2, http := s.http ++ [.get url] })

/-- The decoder consumes `resp.Body`. -/
def Net.readBody (s : Net W) (url : String) : Net W :=
  { s with http := s.http ++ [.read url] }

/-- The deferred `resp.Body.Close()`. -/
def Net.closeBody (s : Net W) (url : String) : Net W :=
  { s with http := s.http ++ [.close url] }

/-- The client returns: the call is added to the log of calls. -/
def Net.returned (s : Net W) (call : Call) : Net W :=
  { s with calls := s.calls ++ [call] }

/-! ## `queryANNOqAPI` (main.go:127-147) and `queryPANTHERAPI` (main.go:149-169) -/

/-- The client `queryANNOqAPI`: one GET on the ANNOq URL of `geneID`, the status check, the
decoding of the body. -/
def queryANNOqAPI (env : Env W) (geneID : String) (s : Net W) :
    Except ClientError ANNOqResponse × Net W :=
  let apiURL := "http://annoq.org/api/query/" ++ geneID
  match Net.Get env apiURL s with
  | (.error err, s) => (.error (.network err), s.returned (.annoq geneID (.error (.network err))))
  | (.ok resp, s) =>
    if resp.StatusCode ≠ 200 then
      (.error .status, (s.closeBody apiURL).returned (.annoq geneID (.error .status)))
    else
      match env.decodeANNOq resp.Body with
      | none =>
        (.error .decode,
          ((s.readBody apiURL).closeBody apiURL).returned (.annoq geneID (.error .decode)))
      | some annoqData =>
        (.ok annoqData,
          ((s.readBody apiURL).closeBody apiURL).returned (.annoq geneID (.ok annoqData)))

/-- The client `queryPANTHERAPI`: one GET on the PANTHER URL of `geneID`, the status check, the
decoding of the body. -/
def queryPANTHERAPI (env : Env W) (geneID : String) (s : Net W) :
    Except ClientError PANTHERResponse × Net W :=
  let apiURL := "http://pantherdb.org/api/query/" ++ geneID
  match Net.Get env apiURL s with
  | (.error err, s) => (.error (.network err), s.returned (.panther geneID (.error (.network err))))
  | (.ok resp, s) =>
    if resp.StatusCode ≠ 200 then
      (.error .status, (s.closeBody apiURL).returned (.panther geneID (.error .status)))
    else
      match env.decodePANTHER resp.Body with
      | none =>
        (.error .decode,
          ((s.readBody apiURL).closeBody apiURL).returned (.panther geneID (.error .decode)))
      | some pantherData =>
        (.ok pantherData,
          ((s.readBody apiURL).closeBody apiURL).returned (.panther geneID (.ok pantherData)))

/-! ## `queryHandler` (main.go:87-125) -/

/-- The `for _, gene := range geneList` loop of main.go:98-121 followed by the final `c.JSON` of
main.go:124. The two `return`s inside the loop end the handler. -/
def queryHandler.loop (env : Env W) :
    List String → List CombinedResult → Context → Net W → Context × Net W
  | [], results, c, s => (c.JSON 200 (.results results), s)
  | gene :: geneList, results, c, s =>
    match queryANNOqAPI env gene s with
    | (.error _, s) => (c.JSON 500 (.error "Failed to query ANNOq API"), s)
    | (.ok annoqData, s) =>
      match queryPANTHERAPI env annoqData.GeneID s with
      | (.error _, s) => (c.JSON 500 (.error "Failed to query PANTHER API"), s)
      | (.ok pantherData, s) =>
        queryHandler.loop env geneList
          (results ++ [⟨annoqData.GeneID, annoqData.Annotation, pantherData.AdditionalInfo⟩]) c s

/-- The handler `queryHandler`: the lookup of `genes` in the context, then the loop. -/
def queryHandler (env : Env W) (c : Context) (s : Net W) : Context × Net W :=
  match c.Get "genes" with
  | none => (c.JSON 400 (.error "No genes found in context"), s)
  | some geneList => queryHandler.loop env geneList [] c s

/-! ## The gin engine (main.go:29-43) -/

/-- The two routes registered in `main`: `POST /upload` with the form file of the request, and
`GET /query`. -/
inductive Request where
  | upload (file : Option FileHeader)
  | query
  deriving DecidableEq, Repr

/-- The engine serves one request: the handler of the route runs on the context of this request.
gin resets a context before every request (`Context.reset` sets `Keys = nil`; the field is
documented as a key/value pair exclusively for the context of each request), so the handler
starts with empty `Keys`. The program has no package-level variables, so nothing but the
outside world is carried from one request to the next. -/
def serve (env : Env W) (req : Request) (s : Net W) : Context × Net W :=
  match req with
  | .upload file => (uploadHandler ⟨file, [], [], false⟩, s)
  | .query => queryHandler env ⟨none, [], [], false⟩ s

/-- URL a completed client call asked for. -/
def Call.url : Call → String
  | .annoq geneID _ => "http://annoq.org/api/query/" ++ geneID
  | .panther geneID _ => "http://pantherdb.org/api/query/" ++ geneID

/-- A completed client call that returned an error. -/
def Call.failed : Call → Bool
  | .annoq _ (.error _) => true
  | .panther _ (.error _) => true
  | _ => false

/-! ## Vocabulary of the statements -/

/-- The context of a request that carries no form file and has written nothing, with the given
`Keys`. -/
def Context.withKeys (keys : List (String × List String)) : Context :=
  ⟨none, keys, [], false⟩

/-- The context of an upload request whose form file opens and has the content `f`. -/
def Context.ofUpload (f : String) : Context :=
  ⟨some ⟨some f⟩, [], [], false⟩

/-- The state before any call: the world `w` and empty logs. -/
def Net.init (w : W) : Net W :=
  ⟨w, [], []⟩

/-! ## Stub services used in the examples -/

/-- Two stub services over a world that counts the requests. A answers `BRCA1`, `TP53` and
`EGFR` with the records `x`, `y` and `z`; B answers `BRCA1` and `EGFR` with status 200 and
`TP53` with the status `tp53`, the bodies carrying `info1`, `info3` and `info2`; any other URL
cannot be reached. -/
def stubEnv (tp53 : Nat) : Env Nat where
  Get := fun url n =>
    if url = "http://annoq.org/api/query/BRCA1" then (.ok ⟨200, "a:BRCA1"⟩, n + 1)
    else if url = "http://annoq.org/api/query/TP53" then (.ok ⟨200, "a:TP53"⟩, n + 1)
    else if url = "http://annoq.org/api/query/EGFR" then (.ok ⟨200, "a:EGFR"⟩, n + 1)
    else if url = "http://pantherdb.org/api/query/BRCA1" then (.ok ⟨200, "b:BRCA1"⟩, n + 1)
    else if url = "http://pantherdb.org/api/query/TP53" then (.ok ⟨tp53, "b:TP53"⟩, n + 1)
    else if url = "http://pantherdb.org/api/query/EGFR" then (.ok ⟨200, "b:EGFR"⟩, n + 1)
    else (.error "no such host", n + 1)
  decodeANNOq := fun body =>
    if body = "a:BRCA1" then some ⟨"BRCA1", "x"⟩
    else if body = "a:TP53" then some ⟨"TP53", "y"⟩
    else if body = "a:EGFR" then some ⟨"EGFR", "z"⟩
    else none
  decodePANTHER := fun body =>
    if body = "b:BRCA1" then some ⟨"BRCA1", "info1"⟩
    else if body = "b:TP53" then some ⟨"TP53", "info2"⟩
    else if body = "b:EGFR" then some ⟨"EGFR", "info3"⟩
    else none

/-- Two stub services that answer every request with the given status and a body that both
decoders accept. -/
def statusEnv (status : Nat) : Env Unit where
  Get := fun _ w => (.ok ⟨status, "ok"⟩, w)
  decodeANNOq := fun _ => some ⟨"BRCA1", "x"⟩
  decodePANTHER := fun _ => some ⟨"BRCA1", "info1"⟩

/-! ## Files written without quoting -/

namespace csv

/-- A field that can be written without quotes: it has no comma, quote, line feed or carriage
return. -/
def Plain (field : String) : Prop :=
  ∀ ch ∈ field.data, ch ≠ ',' ∧ ch ≠ '"' ∧ ch ≠ '\n' ∧ ch ≠ '\r'

instance (field : String) : Decidable (Plain field) := by
  unfold Plain
  infer_instance

/-- The fields of a row, separated by commas. -/
def rowText : List String → List Char
  | [] => []
  | [field] => field.data
  | field :: rest => field.data ++ ',' :: rowText rest

/-- The rows, one per line, each line ended by a line feed. -/
def fileText : List (List String) → List Char
  | [] => []
  | row :: rows => rowText row ++ '\n' :: fileText rows

end csv

/-! ## The reader and the row loop -/

open csv

theorem csv.scanLine_fields_ne_nil (fields : List String) (mode : Mode) (cs : List Char)
    (fs : List String) (h : scanLine fields mode cs = .done fs none) : fs ≠ [] := by
  induction fields, mode, cs using scanLine.induct <;>
    (unfold scanLine at h; (try simp only [] at h); try split_ifs at h) <;>
    first
      | (cases h; simp)
      | simp_all

theorem csv.splitRecords_fields_ne_nil (lines : List (List Char)) :
    ∀ (open_ : Option (List String × List Char)) (raw : RawRecord),
      raw ∈ splitRecords open_ lines → raw.err = none → raw.fields ≠ [] := by
  induction lines with
  | nil =>
    intro o raw hmem herr
    cases o with
    | none => simp [splitRecords] at hmem
    | some p => 
      obtain ⟨fields, buf⟩ := p
      simp [splitRecords] at hmem; subst hmem; simp at herr
  | cons line lines ih =>
    intro o raw hmem herr
    cases o with
    | none =>
      simp only [splitRecords] at hmem
      split at hmem
      · exact ih _ raw hmem herr
      · split at hmem
        · rename_i fs err hscan
          rcases List.mem_cons.1 hmem with h | h
          · subst h; simp at herr; subst herr
            exact csv.scanLine_fields_ne_nil _ _ _ _ hscan
          · exact ih _ raw h herr
        · exact ih _ raw hmem herr
    | some p =>
      obtain ⟨fields, buf⟩ := p
      simp only [splitRecords] at hmem
      split at hmem
      · rename_i fs err hscan
        rcases List.mem_cons.1 hmem with h | h
        · subst h; simp at herr; subst herr
          exact csv.scanLine_fields_ne_nil _ _ _ _ hscan
        · exact ih _ raw h herr
      · exact ih _ raw hmem herr

theorem csv.Read_nil (r : Reader) (h : r.pending = []) : r.Read = (([], some .EOF), r) := by
  simp [Reader.Read, h]

theorem csv.Read_cons (r : Reader) (raw : RawRecord) (rest : List RawRecord)
    (h : r.pending = raw :: rest) :
    r.Read.2.pending = rest ∧ r.Read.1.1 = raw.fields ∧ r.Read.1.2 ≠ some .EOF ∧
      (r.Read.1.2 = none → raw.err = none) := by
  unfold Reader.Read
  rw [h]
  simp only []
  split_ifs <;> simp_all

theorem csv.Read_good (rest : List RawRecord) (row : List String) (n : Nat) (hn : 0 < n)
    (hrow : row.length = n) :
    (Reader.mk (⟨row, none⟩ :: rest) n).Read = ((row, none), ⟨rest, n⟩) := by
  simp [Reader.Read, hn, hrow]

theorem csv.Read_mismatch (rest : List RawRecord) (row : List String) (n : Nat) (hn : 0 < n)
    (hrow : row.length ≠ n) :
    (Reader.mk (⟨row, none⟩ :: rest) n).Read =
      ((row, some (.ParseError .ErrFieldCount)), ⟨rest, n⟩) := by
  simp [Reader.Read, hn, hrow]

theorem uploadHandler.rows_terminates :
    ∀ (fuel : Nat) (r : Reader) (genes : List String),
      r.pending.length < fuel → uploadHandler.rows fuel r genes ≠ .outOfFuel := by
  intro fuel
  induction fuel with
  | zero => intro r genes h; omega
  | succ fuel ih =>
    intro r genes h
    unfold uploadHandler.rows
    cases hp : r.pending with
    | nil => rw [csv.Read_nil r hp]; simp
    | cons raw rest =>
      obtain ⟨h1, _, h3, _⟩ := csv.Read_cons r raw rest hp
      rcases hR : r.Read with ⟨⟨record, err⟩, r2⟩
      rw [hR] at h1 h3
      cases err with
      | some e => cases e <;> simp
      | none =>
        cases record with
        | nil => simp
        | cons g tl =>
          simp only []
          apply ih
          simp only [] at h1
          rw [h1]; rw [hp] at h; simp at h; omega

theorem uploadHandler.rows_good (n : Nat) (hn : 0 < n) (rest : List RawRecord) (fuel : Nat) :
    ∀ (good : List (List String)) (genes : List String),
      (∀ row ∈ good, row.length = n) →
      ∃ gs : List String, gs.map some = good.map (fun row => row[0]?) ∧
        uploadHandler.rows (good.length + fuel)
            ⟨good.map (fun fields => ⟨fields, none⟩) ++ rest, n⟩ genes =
          uploadHandler.rows fuel ⟨rest, n⟩ (genes ++ gs) := by
  intro good
  induction good with
  | nil => intro genes _; exact ⟨[], by simp⟩
  | cons row good ih =>
    intro genes hgood
    have hrow : row.length = n := hgood row (by simp)
    cases row with
    | nil => simp at hrow; omega
    | cons g tl =>
      obtain ⟨gs, hgs, hrun⟩ := ih (genes ++ [g]) (fun row hmem => hgood row (by simp [hmem]))
      refine ⟨g :: gs, by simp [hgs], ?_⟩
      have hfuel : ((g :: tl) :: good).length + fuel = (good.length + fuel) + 1 := by
        simp; omega
      rw [hfuel, uploadHandler.rows]
      simp only [List.map_cons, List.cons_append]
      rw [csv.Read_good _ _ n hn hrow]
      simp only []
      rw [hrun]
      simp

theorem uploadHandler.rows_failed :
    ∀ (k : Nat) (r : Reader) (fuel : Nat) (genes : List String) (e : csv.Error),
      (∀ raw ∈ r.pending, raw.err = none → raw.fields ≠ []) →
      r.pending.length < fuel →
      (r.nthRead k).2 = some e → e ≠ .EOF →
      uploadHandler.rows fuel r genes = .failed := by
  intro k
  induction k with
  | zero =>
    intro r fuel genes e _ hfuel hk he
    cases fuel with
    | zero => omega
    | succ fuel =>
      unfold uploadHandler.rows
      simp only [Reader.nthRead] at hk
      rcases hR : r.Read with ⟨⟨record, err⟩, r2⟩
      rw [hR] at hk
      simp only [] at hk
      subst hk
      cases e <;> simp at he ⊢
  | succ k ih =>
    intro r fuel genes e hwell hfuel hk he
    cases fuel with
    | zero => omega
    | succ fuel =>
      cases hp : r.pending with
      | nil =>
        exfalso
        have hnil : ∀ j, (r.nthRead j).2 = some .EOF := by
          intro j
          induction j with
          | zero => simp [Reader.nthRead, csv.Read_nil r hp]
          | succ j ihj => simpa [Reader.nthRead, csv.Read_nil r hp] using ihj
        rw [hnil] at hk
        cases hk
        exact he rfl
      | cons raw rest =>
        obtain ⟨h1, h2, h3, h4⟩ := csv.Read_cons r raw rest hp
        unfold uploadHandler.rows
        simp only [Reader.nthRead] at hk
        rcases hR : r.Read with ⟨⟨record, err⟩, r2⟩
        rw [hR] at h1 h2 h3 h4 hk
        simp only [] at h1 h2 h3 h4 hk
        cases err with
        | some e2 => cases e2 <;> simp at h3 ⊢
        | none =>
          have hne : record ≠ [] := by
            rw [h2]
            exact hwell raw (by simp [hp]) (h4 rfl)
          cases record with
          | nil => exact absurd rfl hne
          | cons g tl =>
            simp only []
            apply ih r2 fuel _ e _ _ hk he
            · intro raw2 hmem
              exact hwell raw2 (by rw [hp, ← h1]; exact List.mem_cons_of_mem _ hmem)
            · rw [h1]; rw [hp] at hfuel; simp at hfuel; omega


theorem csv.NewReader_fields_ne_nil (f : String) :
    ∀ raw ∈ (csv.NewReader f).Read.2.pending, raw.err = none → raw.fields ≠ [] := by
  intro raw hmem herr
  apply csv.splitRecords_fields_ne_nil (readLines [] f.data) none raw _ herr
  cases hp : (csv.NewReader f).pending with
  | nil => rw [csv.Read_nil _ hp, hp] at hmem; cases hmem
  | cons hd rest =>
    have h := (csv.Read_cons _ hd rest hp).1
    rw [h] at hmem
    have : raw ∈ (csv.NewReader f).pending := by rw [hp]; exact List.mem_cons_of_mem _ hmem
    exact this

theorem uploadHandler.rows_total :
    ∀ (fuel : Nat) (r : Reader) (genes : List String),
      (∀ raw ∈ r.pending, raw.err = none → raw.fields ≠ []) →
      r.pending.length < fuel →
      (∃ gs, uploadHandler.rows fuel r genes = .eof gs) ∨
        uploadHandler.rows fuel r genes = .failed := by
  intro fuel
  induction fuel with
  | zero => intro r genes _ h; omega
  | succ fuel ih =>
    intro r genes hwell h
    rw [uploadHandler.rows]
    cases hp : r.pending with
    | nil => rw [csv.Read_nil r hp]; exact Or.inl ⟨genes, rfl⟩
    | cons raw rest =>
      obtain ⟨h1, h2, h3, h4⟩ := csv.Read_cons r raw rest hp
      rcases hR : r.Read with ⟨⟨record, err⟩, r2⟩
      rw [hR] at h1 h2 h3 h4
      simp only [] at h1 h2 h3 h4
      cases err with
      | some e => cases e <;> simp at h3 ⊢
      | none =>
        have hne : record ≠ [] := by
          rw [h2]
          exact hwell raw (by simp [hp]) (h4 rfl)
        cases record with
        | nil => exact absurd rfl hne
        | cons g tl =>
          simp only []
          apply ih
          · intro raw2 hmem
            exact hwell raw2 (by rw [hp, ← h1]; exact List.mem_cons_of_mem _ hmem)
          · rw [h1]; rw [hp] at h; simp at h; omega

theorem uploadHandler_responds_once (c : Context) :
    ∃ resp : Response, (uploadHandler c).written = c.written ++ [resp] ∧
      (uploadHandler c).panicked = c.panicked := by
  cases hf : c.formFile with
  | none => exact ⟨⟨400, .error "Invalid file"⟩, by simp [uploadHandler, hf, Context.JSON]⟩
  | some file =>
    cases ho : file.content with
    | none =>
      exact ⟨⟨500, .error "Unable to open file"⟩, by simp [uploadHandler, hf, ho, Context.JSON]⟩
    | some f =>
      rcases uploadHandler.rows_total ((csv.NewReader f).Read.2.pending.length + 1)
        (csv.NewReader f).Read.2 [] (csv.NewReader_fields_ne_nil f) (Nat.lt_succ_self _) with
        ⟨gs, h⟩ | h
      · exact ⟨⟨200, .uploaded "File uploaded successfully" gs⟩,
          by simp [uploadHandler, hf, ho, h, Context.JSON, Context.Set]⟩
      · exact ⟨⟨500, .error "Failed to read CSV file"⟩,
          by simp [uploadHandler, hf, ho, h, Context.JSON]⟩

theorem Context.Get_Set_JSON (c : Context) (key : String) (value : List String) (status : Nat)
    (body : JSONBody) : ((c.Set key value).JSON status body).Get key = some value := by
  simp [Context.Get, Context.Set, Context.JSON, List.lookup]

/-! ## Reading back a file written without quoting -/

theorem csv.readLines_line (rest : List Char) :
    ∀ (xs acc : List Char), (∀ ch ∈ xs, ch ≠ '\n' ∧ ch ≠ '\r') → acc.head? ≠ some '\r' →
      readLines acc (xs ++ '\n' :: rest) = (acc.reverse ++ xs ++ ['\n']) :: readLines [] rest := by
  intro xs
  induction xs with
  | nil =>
    intro acc _ hacc
    cases acc with
    | nil => simp [readLines]
    | cons a acc =>
      have : a ≠ '\r' := by simpa using hacc
      simp only [List.nil_append, readLines, if_true, List.append_nil]
      split
      · rename_i heq; cases heq; exact absurd rfl this
      · rfl
  | cons x xs ih =>
    intro acc hxs hacc
    have hx := hxs x (by simp)
    simp only [List.cons_append, readLines, hx.1, if_false, List.append_eq]
    rw [ih (x :: acc) (fun ch hmem => hxs ch (by simp [hmem])) (by simpa using hx.2)]
    simp


theorem csv.rowText_chars :
    ∀ (row : List String), (∀ field ∈ row, Plain field) →
      ∀ ch ∈ rowText row, ch ≠ '"' ∧ ch ≠ '\n' ∧ ch ≠ '\r' := by
  intro row
  induction row with
  | nil => intro _ ch h; simp [rowText] at h
  | cons field rest ih =>
    intro hrow ch hmem
    have hf := hrow field (by simp)
    cases rest with
    | nil =>
      simp only [rowText] at hmem
      exact (hf ch hmem).2
    | cons f2 rest =>
      simp only [rowText, List.mem_append, List.mem_cons] at hmem
      rcases hmem with h | h | h
      · exact (hf ch h).2
      · subst h; decide
      · exact ih (fun fld hm => hrow fld (by simp [hm])) ch (by simpa [rowText] using h)

theorem csv.readLines_fileText :
    ∀ (rows : List (List String)), (∀ row ∈ rows, ∀ field ∈ row, Plain field) →
      readLines [] (fileText rows) = rows.map (fun row => rowText row ++ ['\n']) := by
  intro rows
  induction rows with
  | nil => intro _; rfl
  | cons row rows ih =>
    intro h
    simp only [fileText, List.map_cons]
    rw [csv.readLines_line _ (rowText row) []
      (fun ch hmem => (csv.rowText_chars row (h row (by simp)) ch hmem).2) (by simp)]
    rw [ih (fun r hm => h r (by simp [hm]))]
    simp

theorem csv.scanLine_bare (fields : List String) (tail : List Char) :
    ∀ (xs buf : List Char), (∀ ch ∈ xs, ch ≠ ',' ∧ ch ≠ '"' ∧ ch ≠ '\n' ∧ ch ≠ '\r') →
      scanLine fields (.bare buf) (xs ++ tail) = scanLine fields (.bare (buf ++ xs)) tail := by
  intro xs
  induction xs with
  | nil => intro buf _; simp
  | cons x xs ih =>
    intro buf hxs
    have hx := hxs x (by simp)
    rw [List.cons_append, scanLine]
    simp only [hx.1, hx.2.1, hx.2.2.1, false_and, if_false]
    rw [ih _ (fun ch hm => hxs ch (by simp [hm]))]
    simp

theorem csv.scanLine_field_last (fields : List String) (field : String) (hf : Plain field) :
    scanLine fields .start (field.data ++ ['\n']) = .done (fields ++ [field]) none := by
  have hmk : ∀ s : String, String.mk s.data = s := fun s => rfl
  cases hd : field.data with
  | nil =>
    have hfe : field = "" := by
      have := hmk field
      rw [hd] at this
      exact this.symm
    subst hfe
    simp [scanLine]
  | cons x xs =>
    have hx : x ≠ ',' ∧ x ≠ '"' ∧ x ≠ '\n' ∧ x ≠ '\r' := hf x (by simp [hd])
    have hxs : ∀ ch ∈ xs, ch ≠ ',' ∧ ch ≠ '"' ∧ ch ≠ '\n' ∧ ch ≠ '\r' :=
      fun ch hm => hf ch (by simp [hd, hm])
    rw [List.cons_append, scanLine]
    simp only [hx.1, hx.2.1, hx.2.2.1, false_and, if_false]
    rw [csv.scanLine_bare fields ['\n'] xs [x] hxs]
    have hfield : String.mk (x :: xs) = field := by
      rw [← hmk field, hd]
    simp [scanLine, hfield]

theorem csv.scanLine_field_comma (fields : List String) (field : String) (more : List Char)
    (hf : Plain field) :
    scanLine fields .start (field.data ++ ',' :: more) =
      scanLine (fields ++ [field]) .start more := by
  have hmk : ∀ s : String, String.mk s.data = s := fun s => rfl
  cases hd : field.data with
  | nil =>
    have hfe : field = "" := by
      have := hmk field
      rw [hd] at this
      exact this.symm
    subst hfe
    simp [scanLine]
  | cons x xs =>
    have hx : x ≠ ',' ∧ x ≠ '"' ∧ x ≠ '\n' ∧ x ≠ '\r' := hf x (by simp [hd])
    have hxs : ∀ ch ∈ xs, ch ≠ ',' ∧ ch ≠ '"' ∧ ch ≠ '\n' ∧ ch ≠ '\r' :=
      fun ch hm => hf ch (by simp [hd, hm])
    rw [List.cons_append, scanLine]
    simp only [hx.1, hx.2.1, hx.2.2.1, false_and, if_false]
    rw [csv.scanLine_bare fields (',' :: more) xs [x] hxs]
    have hfield : String.mk (x :: xs) = field := by
      rw [← hmk field, hd]
    simp [scanLine, hfield]

theorem csv.scanLine_rowText :
    ∀ (row : List String) (fields : List String), row ≠ [] → (∀ field ∈ row, Plain field) →
      scanLine fields .start (rowText row ++ ['\n']) = .done (fields ++ row) none := by
  intro row
  induction row with
  | nil => intro fields h; exact absurd rfl h
  | cons field rest ih =>
    intro fields _ hrow
    have hf := hrow field (by simp)
    cases rest with
    | nil =>
      simp only [rowText]
      exact csv.scanLine_field_last fields field hf
    | cons f2 rest =>
      simp only [rowText, List.append_assoc, List.cons_append]
      rw [csv.scanLine_field_comma fields field _ hf]
      have := ih (fields ++ [field]) (by simp) (fun fld hm => hrow fld (by simp [hm]))
      rw [this]
      simp

theorem csv.rowText_eq_nil (row : List String) (h : rowText row = []) :
    row = [] ∨ row = [""] := by
  have hmk : ∀ s : String, String.mk s.data = s := fun s => rfl
  cases row with
  | nil => exact Or.inl rfl
  | cons field rest =>
    cases rest with
    | nil =>
      simp only [rowText] at h
      have := hmk field
      rw [h] at this
      exact Or.inr (by rw [← this])
    | cons f2 rest => simp [rowText] at h

theorem csv.splitRecords_written :
    ∀ (rows : List (List String)), (∀ row ∈ rows, ∀ field ∈ row, Plain field) →
      (∀ row ∈ rows, row ≠ [] ∧ row ≠ [""]) →
      splitRecords none (rows.map (fun row => rowText row ++ ['\n'])) =
        rows.map (fun fields => ⟨fields, none⟩) := by
  intro rows
  induction rows with
  | nil => intro _ _; rfl
  | cons row rows ih =>
    intro hplain hrows
    have hrow := hrows row (by simp)
    have hline : ¬ (rowText row ++ ['\n'] = [] ∨ rowText row ++ ['\n'] = ['\n']) := by
      intro h
      rcases h with h | h
      · simp at h
      · have : rowText row = [] := by simpa using h
        rcases csv.rowText_eq_nil row this with h2 | h2
        · exact hrow.1 h2
        · exact hrow.2 h2
    simp only [List.map_cons, splitRecords, hline, if_false]
    rw [csv.scanLine_rowText row [] hrow.1 (hplain row (by simp))]
    simp only [List.nil_append]
    rw [ih (fun r hm => hplain r (by simp [hm])) (fun r hm => hrows r (by simp [hm]))]

/-- A file written without quoting reads back as it was written: for rows of plain fields, none
of them without a field and none of them written as an empty line, the reader over the written
file yields exactly these rows, each without error. -/
theorem csv.NewReader_fileText (rows : List (List String))
    (hplain : ∀ row ∈ rows, ∀ field ∈ row, Plain field)
    (hrows : ∀ row ∈ rows, row ≠ [] ∧ row ≠ [""]) :
    (NewReader (String.mk (fileText rows))).pending =
      rows.map (fun fields => ⟨fields, none⟩) := by
  simp only [NewReader]
  rw [csv.readLines_fileText rows hplain]
  exact csv.splitRecords_written rows hplain hrows

/-! ## Claims about `uploadHandler` -/

/-- C3. An uploaded file that splits into a header record followed by `N` data records, each
with as many fields as the header, is answered with one 200 response that carries the parsed gene
list; the list is stored under `genes`, has `N` entries, and its `i`-th entry is field 0 of the
`i`-th data record. -/
theorem upload_header_and_rows (c : Context) (file : FileHeader) (f : String)
    (header : List String) (rows : List (List String))
    (hform : c.formFile = some file) (hopen : file.content = some f)
    (hsplit : (csv.NewReader f).pending =
      (header :: rows).map (fun fields => ⟨fields, none⟩))
    (hrows : ∀ row ∈ rows, row.length = header.length) :
    ∃ genes : List String,
      (uploadHandler c).written =
        c.written ++ [⟨200, .uploaded "File uploaded successfully" genes⟩] ∧
      (uploadHandler c).Get "genes" = some genes ∧
      (uploadHandler c).panicked = c.panicked ∧
      genes.length = rows.length ∧
      genes.map some = rows.map (fun row => row[0]?) := by
  have hr : csv.NewReader f =
      ⟨⟨header, none⟩ :: rows.map (fun fields => ⟨fields, none⟩), 0⟩ := by
    have h0 : csv.NewReader f = ⟨(csv.NewReader f).pending, 0⟩ := rfl
    rw [h0, hsplit]; rfl
  have hheader : header ≠ [] :=
    csv.splitRecords_fields_ne_nil (readLines [] f.data) none ⟨header, none⟩
      (by have h := hsplit
          simp only [NewReader, List.map_cons] at h
          rw [h]; exact List.mem_cons_self _ _) rfl
  have hn : 0 < header.length := List.length_pos.2 hheader
  obtain ⟨gs, hgs, hrun⟩ := uploadHandler.rows_good header.length hn [] 1 rows [] hrows
  have hlen : gs.length = rows.length := by
    have := congrArg List.length hgs
    simpa using this
  refine ⟨gs, ?_⟩
  have hup : uploadHandler c =
      (c.Set "genes" gs).JSON 200 (.uploaded "File uploaded successfully" gs) := by
    simp only [uploadHandler, hform, hopen, hr, Reader.Read, lt_self_iff_false, if_false,
      if_true, List.length_map]
    simp only [List.append_nil, List.nil_append] at hrun
    rw [hrun]
    simp [uploadHandler.rows, Reader.Read]
  rw [hup]
  exact ⟨by simp [Context.JSON, Context.Set], Context.Get_Set_JSON _ _ _ _ _,
    by simp [Context.JSON, Context.Set], hlen, hgs⟩

/-- C7, as the code behaves. The reader checks the column count: once the header record has
set the expected number of fields, the first data record with another number of fields makes
`Read` fail with `ErrFieldCount`, and the upload is answered with the single response 500
`Failed to read CSV file`; nothing is stored. -/
theorem upload_field_count_mismatch (c : Context) (file : FileHeader) (f : String)
    (header : List String) (before : List (List String)) (bad : List String)
    (after : List csv.RawRecord)
    (hform : c.formFile = some file) (hopen : file.content = some f)
    (hsplit : (csv.NewReader f).pending =
      ⟨header, none⟩ :: (before.map (fun fields => ⟨fields, none⟩) ++ ⟨bad, none⟩ :: after))
    (hbefore : ∀ row ∈ before, row.length = header.length)
    (hbad : bad.length ≠ header.length) :
    ((csv.NewReader f).Read.2.nthRead before.length).2 = some (.ParseError .ErrFieldCount) ∧
    (uploadHandler c).written = c.written ++ [⟨500, .error "Failed to read CSV file"⟩] ∧
    (uploadHandler c).Keys = c.Keys := by
  have hr : csv.NewReader f =
      ⟨⟨header, none⟩ :: (before.map (fun fields => ⟨fields, none⟩) ++ ⟨bad, none⟩ :: after),
        0⟩ := by
    have h0 : csv.NewReader f = ⟨(csv.NewReader f).pending, 0⟩ := rfl
    rw [h0, hsplit]
  have hheader : header ≠ [] :=
    csv.splitRecords_fields_ne_nil (readLines [] f.data) none ⟨header, none⟩
      (by have h := hsplit
          simp only [NewReader] at h
          rw [h]; exact List.mem_cons_self _ _) rfl
  have hn : 0 < header.length := List.length_pos.2 hheader
  have hread : (csv.NewReader f).Read.2 =
      ⟨before.map (fun fields => ⟨fields, none⟩) ++ ⟨bad, none⟩ :: after, header.length⟩ := by
    rw [hr]; simp [Reader.Read]
  have hnth : ∀ (good : List (List String)), (∀ row ∈ good, row.length = header.length) →
      ((Reader.mk (good.map (fun fields => ⟨fields, none⟩) ++ ⟨bad, none⟩ :: after)
        header.length).nthRead good.length).2 = some (.ParseError .ErrFieldCount) := by
    intro good
    induction good with
    | nil => intro _; simp [Reader.nthRead, csv.Read_mismatch _ _ _ hn hbad]
    | cons row good ih =>
      intro hgood
      simp only [List.map_cons, List.cons_append, List.length_cons, Reader.nthRead]
      rw [csv.Read_good _ _ _ hn (hgood row (by simp))]
      exact ih (fun row hmem => hgood row (by simp [hmem]))
  have hk := hnth before hbefore
  rw [← hread] at hk
  refine ⟨hk, ?_⟩
  have hfail := uploadHandler.rows_failed before.length (csv.NewReader f).Read.2
    ((csv.NewReader f).Read.2.pending.length + 1) [] _ (csv.NewReader_fields_ne_nil f)
    (Nat.lt_succ_self _) hk (by simp)
  have hup : uploadHandler c = c.JSON 500 (.error "Failed to read CSV file") := by
    simp only [uploadHandler, hform, hopen]
    rw [hfail]
  rw [hup]
  simp [Context.JSON]

/-- C8. When reading some data row (any call of `Read` after the one for the header) returns an
error other than `io.EOF`, the upload writes exactly one response, 500 with the error body
`Failed to read CSV file` (which carries no gene list), and `c.Set` is not called: `Keys` is
unchanged. -/
theorem upload_parse_failure_is_atomic (c : Context) (file : FileHeader) (f : String) (k : Nat)
    (e : csv.Error)
    (hform : c.formFile = some file) (hopen : file.content = some f)
    (hk : ((csv.NewReader f).Read.2.nthRead k).2 = some e) (he : e ≠ .EOF) :
    (uploadHandler c).written = c.written ++ [⟨500, .error "Failed to read CSV file"⟩] ∧
    (uploadHandler c).Keys = c.Keys ∧
    (uploadHandler c).Get "genes" = c.Get "genes" := by
  have hfail := uploadHandler.rows_failed k (csv.NewReader f).Read.2
    ((csv.NewReader f).Read.2.pending.length + 1) [] e (csv.NewReader_fields_ne_nil f)
    (Nat.lt_succ_self _) hk he
  have hup : uploadHandler c = c.JSON 500 (.error "Failed to read CSV file") := by
    simp only [uploadHandler, hform, hopen]
    rw [hfail]
  rw [hup]
  simp [Context.JSON, Context.Get]

/-- C3, an instance: a header and two data rows with two columns. -/
theorem upload_header_and_rows_witness :
    ∃ genes : List String,
      (uploadHandler (Context.ofUpload "gene_id,name\nBRCA1,one\nTP53,two\n")).written =
        [] ++ [⟨200, .uploaded "File uploaded successfully" genes⟩] ∧
      (uploadHandler (Context.ofUpload "gene_id,name\nBRCA1,one\nTP53,two\n")).Get "genes" =
        some genes ∧
      (uploadHandler (Context.ofUpload "gene_id,name\nBRCA1,one\nTP53,two\n")).panicked =
        false ∧
      genes.length = 2 ∧
      genes.map some = [["BRCA1", "one"], ["TP53", "two"]].map (fun row => row[0]?) :=
  upload_header_and_rows (Context.ofUpload "gene_id,name\nBRCA1,one\nTP53,two\n")
    ⟨some "gene_id,name\nBRCA1,one\nTP53,two\n"⟩ "gene_id,name\nBRCA1,one\nTP53,two\n"
    ["gene_id", "name"] [["BRCA1", "one"], ["TP53", "two"]] rfl rfl (by decide) (by decide)

/-- C4 fails as stated: on the empty upload the header read returns `io.EOF`, and yet the
handler answers 200 with an empty gene list and stores the empty list under `genes`. -/
theorem empty_upload_is_accepted :
    (csv.NewReader "").Read.1 = ([], some .EOF) ∧
    (uploadHandler (Context.ofUpload "")).written =
      [⟨200, .uploaded "File uploaded successfully" []⟩] ∧
    (uploadHandler (Context.ofUpload "")).Get "genes" = some [] := by
  decide

/-- C4, as the code behaves. The error of the header read is dropped: for the empty upload, in
any context, the handler writes one response, 200 with the empty gene list, and stores the empty
list under `genes`. -/
theorem upload_empty_file (keys : List (String × List String)) (written : List Response)
    (panicked : Bool) :
    (uploadHandler ⟨some ⟨some ""⟩, keys, written, panicked⟩).written =
      written ++ [⟨200, .uploaded "File uploaded successfully" []⟩] ∧
    (uploadHandler ⟨some ⟨some ""⟩, keys, written, panicked⟩).Get "genes" = some [] := by
  have hup : uploadHandler ⟨some ⟨some ""⟩, keys, written, panicked⟩ =
      ((Context.mk (some ⟨some ""⟩) keys written panicked).Set "genes" []).JSON 200
        (.uploaded "File uploaded successfully" []) := rfl
  rw [hup]
  exact ⟨by simp [Context.JSON, Context.Set], Context.Get_Set_JSON _ _ _ _ _⟩

/-- C7 fails as stated: the header has two fields, the data row `BRCA1` has one. The row splits
without error, and yet reading it fails with `ErrFieldCount`; the upload is answered 500 and
nothing is stored. -/
theorem ragged_row_is_rejected :
    (csv.NewReader "gene_id,name\nBRCA1\n").pending =
      [⟨["gene_id", "name"], none⟩, ⟨["BRCA1"], none⟩] ∧
    ((csv.NewReader "gene_id,name\nBRCA1\n").Read.2.nthRead 0).2 =
      some (.ParseError .ErrFieldCount) ∧
    (uploadHandler (Context.ofUpload "gene_id,name\nBRCA1\n")).written =
      [⟨500, .error "Failed to read CSV file"⟩] ∧
    (uploadHandler (Context.ofUpload "gene_id,name\nBRCA1\n")).Get "genes" = none := by
  decide

/-- C7 as amended, an instance: the second data row lacks a column. -/
theorem upload_field_count_mismatch_witness :
    ((csv.NewReader "gene_id,name\nBRCA1,one\nTP53\nEGFR,three").Read.2.nthRead 1).2 =
      some (.ParseError .ErrFieldCount) ∧
    (uploadHandler (Context.ofUpload "gene_id,name\nBRCA1,one\nTP53\nEGFR,three")).written =
      [] ++ [⟨500, .error "Failed to read CSV file"⟩] ∧
    (uploadHandler (Context.ofUpload "gene_id,name\nBRCA1,one\nTP53\nEGFR,three")).Keys = [] :=
  upload_field_count_mismatch (Context.ofUpload "gene_id,name\nBRCA1,one\nTP53\nEGFR,three")
    ⟨some "gene_id,name\nBRCA1,one\nTP53\nEGFR,three"⟩
    "gene_id,name\nBRCA1,one\nTP53\nEGFR,three"
    ["gene_id", "name"] [["BRCA1", "one"]] ["TP53"] [⟨["EGFR", "three"], none⟩]
    rfl rfl (by decide) (by decide) (by decide)

/-- C8, an instance: the second data row has a bare quote; the context already holds a gene
list, which stays as it was. -/
theorem upload_parse_failure_is_atomic_witness :
    ((csv.NewReader "gene_id\nBRCA1\nTP\"53\nEGFR").Read.2.nthRead 1).2 =
      some (.ParseError .ErrBareQuote) ∧
    (uploadHandler ⟨some ⟨some "gene_id\nBRCA1\nTP\"53\nEGFR"⟩, [("genes", ["OLD"])], [],
      false⟩).written = [] ++ [⟨500, .error "Failed to read CSV file"⟩] ∧
    (uploadHandler ⟨some ⟨some "gene_id\nBRCA1\nTP\"53\nEGFR"⟩, [("genes", ["OLD"])], [],
      false⟩).Keys = [("genes", ["OLD"])] ∧
    (uploadHandler ⟨some ⟨some "gene_id\nBRCA1\nTP\"53\nEGFR"⟩, [("genes", ["OLD"])], [],
      false⟩).Get "genes" = some ["OLD"] :=
  ⟨by decide,
    upload_parse_failure_is_atomic
      ⟨some ⟨some "gene_id\nBRCA1\nTP\"53\nEGFR"⟩, [("genes", ["OLD"])], [], false⟩
      ⟨some "gene_id\nBRCA1\nTP\"53\nEGFR"⟩ "gene_id\nBRCA1\nTP\"53\nEGFR" 1
      (.ParseError .ErrBareQuote) rfl rfl (by decide) (by decide)⟩

/-! ## The clients -/

theorem Context.JSON_injective (c : Context) (status status2 : Nat) (body body2 : JSONBody)
    (h : c.JSON status body = c.JSON status2 body2) : status = status2 ∧ body = body2 := by
  have hw := congrArg Context.written h
  simp [Context.JSON] at hw
  exact hw

theorem queryHandler.loop_append (env : Env W) (c : Context) (rest : List String) :
    ∀ (before : List String) (acc results : List CombinedResult) (s s1 : Net W),
      queryHandler.loop env before acc c s = (c.JSON 200 (.results results), s1) →
      queryHandler.loop env (before ++ rest) acc c s = queryHandler.loop env rest results c s1 := by
  intro before
  induction before with
  | nil =>
    intro acc results s s1 h
    simp only [queryHandler.loop, Prod.mk.injEq] at h
    obtain ⟨h1, h2⟩ := h
    have := (Context.JSON_injective _ _ _ _ _ h1).2
    cases this
    subst h2
    rfl
  | cons gene before ih =>
    intro acc results s s1 h
    simp only [List.cons_append]
    rw [queryHandler.loop] at h ⊢
    rcases hA : queryANNOqAPI env gene s with ⟨ra, sa⟩
    rw [hA] at h
    cases ra with
    | error e =>
      simp only [Prod.mk.injEq] at h
      have := (Context.JSON_injective _ _ _ _ _ h.1).1
      omega
    | ok a =>
      simp only [] at h ⊢
      rcases hB : queryPANTHERAPI env a.GeneID sa with ⟨rb, sb⟩
      rw [hB] at h
      cases rb with
      | error e =>
        simp only [Prod.mk.injEq] at h
        have := (Context.JSON_injective _ _ _ _ _ h.1).1
        omega
      | ok b =>
        simp only [] at h ⊢
        exact ih _ _ _ _ h


/-- C5. Fail-fast: when the genes before `gene` all succeed (the loop run on them alone ends in
the 200 response with `results`, leaving the network in state `s1`) and then client A, or
client B after it, returns an error on `gene`, the query writes exactly one response: 500 with an
error body. No 200 response is written and none of `results` is returned. -/
theorem query_fails_fast (env : Env W) (c : Context) (s s1 : Net W)
    (before : List String) (gene : String) (after : List String)
    (results : List CombinedResult)
    (hget : c.Get "genes" = some (before ++ gene :: after))
    (hbefore : queryHandler.loop env before [] c s = (c.JSON 200 (.results results), s1))
    (hfail : (∃ e, (queryANNOqAPI env gene s1).1 = .error e) ∨
      (∃ a e, (queryANNOqAPI env gene s1).1 = .ok a ∧
        (queryPANTHERAPI env a.GeneID (queryANNOqAPI env gene s1).2).1 = .error e)) :
    ∃ msg : String,
      (msg = "Failed to query ANNOq API" ∨ msg = "Failed to query PANTHER API") ∧
      (queryHandler env c s).1.written = c.written ++ [⟨500, .error msg⟩] := by
  have hloop := queryHandler.loop_append env c (gene :: after) before [] results s s1 hbefore
  simp only [queryHandler, hget]
  rw [hloop, queryHandler.loop]
  rcases hqa : queryANNOqAPI env gene s1 with ⟨ra, sa⟩
  rw [hqa] at hfail
  simp only [] at hfail ⊢
  rcases hfail with ⟨e, he⟩ | ⟨a, e, ha, hb⟩
  · subst he
    exact ⟨_, Or.inl rfl, by simp [Context.JSON]⟩
  · subst ha
    rcases hqb : queryPANTHERAPI env a.GeneID sa with ⟨rb, sb⟩
    rw [hqb] at hb
    simp only [] at hb ⊢
    subst hb
    rw [hqb]
    exact ⟨_, Or.inr rfl, by simp [Context.JSON]⟩

/-- C5, an instance: three genes, the stub of B answers the second one with status 503. -/
theorem query_fails_fast_witness :
    ∃ msg : String,
      (msg = "Failed to query ANNOq API" ∨ msg = "Failed to query PANTHER API") ∧
      (queryHandler (stubEnv 503) (Context.withKeys [("genes", ["BRCA1", "TP53", "EGFR"])])
        (Net.init 0)).1.written = [] ++ [⟨500, .error msg⟩] :=
  query_fails_fast (stubEnv 503) (Context.withKeys [("genes", ["BRCA1", "TP53", "EGFR"])])
    (Net.init 0)
    (queryHandler.loop (stubEnv 503) ["BRCA1"] []
      (Context.withKeys [("genes", ["BRCA1", "TP53", "EGFR"])]) (Net.init 0)).2
    ["BRCA1"] "TP53" ["EGFR"] [⟨"BRCA1", "x", "info1"⟩] rfl rfl
    (Or.inr ⟨⟨"TP53", "y"⟩, .status, rfl, rfl⟩)

/-- C9. On a context without a `genes` entry the query writes exactly one response, 400 with an
error body, and leaves the network untouched: no client is called and no result is returned. -/
theorem query_without_genes (env : Env W) (c : Context) (s : Net W)
    (hget : c.Get "genes" = none) :
    (queryHandler env c s).1.written =
        c.written ++ [⟨400, .error "No genes found in context"⟩] ∧
      (queryHandler env c s).2 = s := by
  simp [queryHandler, hget, Context.JSON]

/-- C9, an instance: a context with another key only. -/
theorem query_without_genes_witness :
    (Context.withKeys [("other", ["BRCA1"])]).Get "genes" = none ∧
    (queryHandler (stubEnv 200) (Context.withKeys [("other", ["BRCA1"])]) (Net.init 0)).1.written =
        [] ++ [⟨400, .error "No genes found in context"⟩] ∧
      (queryHandler (stubEnv 200) (Context.withKeys [("other", ["BRCA1"])]) (Net.init 0)).2 =
        Net.init 0 :=
  ⟨by decide, query_without_genes (stubEnv 200) (Context.withKeys [("other", ["BRCA1"])])
    (Net.init 0) (by decide)⟩

/-- C6, as the code behaves. A client returns the status error exactly when `http.Get` gave a
response whose status is not 200 (`http.StatusOK`), so also for the other 2xx codes; for status
200 and a body that decodes it returns the decoded record; and when it returns the status error
the body is closed without having been read. This holds for `queryANNOqAPI` and for
`queryPANTHERAPI`. -/
theorem clients_check_status_200 (env : Env W) (geneID : String) (s : Net W) :
    (((queryANNOqAPI env geneID s).1 = .error .status ↔
        ∃ resp, (env.Get ("http://annoq.org/api/query/" ++ geneID) s.world).1 = .ok resp ∧
          resp.StatusCode ≠ 200) ∧
      (∀ resp a, (env.Get ("http://annoq.org/api/query/" ++ geneID) s.world).1 = .ok resp →
        resp.StatusCode = 200 → env.decodeANNOq resp.Body = some a →
        (queryANNOqAPI env geneID s).1 = .ok a) ∧
      ((queryANNOqAPI env geneID s).1 = .error .status →
        (queryANNOqAPI env geneID s).2.http =
          s.http ++ [.get ("http://annoq.org/api/query/" ++ geneID),
            .close ("http://annoq.org/api/query/" ++ geneID)])) ∧
    (((queryPANTHERAPI env geneID s).1 = .error .status ↔
        ∃ resp, (env.Get ("http://pantherdb.org/api/query/" ++ geneID) s.world).1 = .ok resp ∧
          resp.StatusCode ≠ 200) ∧
      (∀ resp b, (env.Get ("http://pantherdb.org/api/query/" ++ geneID) s.world).1 = .ok resp →
        resp.StatusCode = 200 → env.decodePANTHER resp.Body = some b →
        (queryPANTHERAPI env geneID s).1 = .ok b) ∧
      ((queryPANTHERAPI env geneID s).1 = .error .status →
        (queryPANTHERAPI env geneID s).2.http =
          s.http ++ [.get ("http://pantherdb.org/api/query/" ++ geneID),
            .close ("http://pantherdb.org/api/query/" ++ geneID)])) := by
  constructor
  · rcases hG : env.Get ("http://annoq.org/api/query/" ++ geneID) s.world with ⟨res, w⟩
    cases res with
    | error e => simp [queryANNOqAPI, Net.Get, hG]
    | ok resp =>
      by_cases hs : resp.StatusCode = 200
      · cases hd : env.decodeANNOq resp.Body <;>
          simp [queryANNOqAPI, Net.Get, hG, hs, hd] <;>
          (intro r x h1 _ h3; subst h1; simp_all)
      · simp [queryANNOqAPI, Net.Get, hG, hs, Net.returned, Net.closeBody]
        intro r x h1 h2; subst h1; exact absurd h2 hs
  · rcases hG : env.Get ("http://pantherdb.org/api/query/" ++ geneID) s.world with ⟨res, w⟩
    cases res with
    | error e => simp [queryPANTHERAPI, Net.Get, hG]
    | ok resp =>
      by_cases hs : resp.StatusCode = 200
      · cases hd : env.decodePANTHER resp.Body <;>
          simp [queryPANTHERAPI, Net.Get, hG, hs, hd] <;>
          (intro r x h1 _ h3; subst h1; simp_all)
      · simp [queryPANTHERAPI, Net.Get, hG, hs, Net.returned, Net.closeBody]
        intro r x h1 h2; subst h1; exact absurd h2 hs

/-- C6, an instance: status 200 with a body that decodes gives the record, for both clients. -/
theorem clients_check_status_200_witness :
    (queryANNOqAPI (statusEnv 200) "BRCA1" (Net.init ())).1 = .ok ⟨"BRCA1", "x"⟩ ∧
    (queryPANTHERAPI (statusEnv 200) "BRCA1" (Net.init ())).1 = .ok ⟨"BRCA1", "info1"⟩ :=
  ⟨(clients_check_status_200 (statusEnv 200) "BRCA1" (Net.init ())).1.2.1
      ⟨200, "ok"⟩ ⟨"BRCA1", "x"⟩ rfl rfl rfl,
    (clients_check_status_200 (statusEnv 200) "BRCA1" (Net.init ())).2.2.1
      ⟨200, "ok"⟩ ⟨"BRCA1", "info1"⟩ rfl rfl rfl⟩

/-- C6 fails as stated: on the 2xx statuses 201, 204 and 206, with a body that decodes, the
clients return the status error and not the decoded record. -/
theorem clients_reject_other_2xx :
    (statusEnv 201).decodeANNOq "ok" = some ⟨"BRCA1", "x"⟩ ∧
    (queryANNOqAPI (statusEnv 201) "BRCA1" (Net.init ())).1 = .error .status ∧
    (queryANNOqAPI (statusEnv 204) "BRCA1" (Net.init ())).1 = .error .status ∧
    (statusEnv 206).decodePANTHER "ok" = some ⟨"BRCA1", "info1"⟩ ∧
    (queryPANTHERAPI (statusEnv 206) "BRCA1" (Net.init ())).1 = .error .status :=
  ⟨rfl, rfl, rfl, rfl, rfl⟩

/-! ## Upload, then query -/

/-- C2 does not hold on the code. Whatever is uploaded, and whatever the services do, a query
served after the upload finds no `genes` entry, because its context is a new one, and answers 400.
In the example of the claim the upload is answered 200 with the two genes, the query that follows
is answered 400, and only a query whose own context held the list would give the two combined
results. -/
theorem upload_then_query_answers_400 :
    (∀ (W : Type) (env : Env W) (file : Option FileHeader) (s : Net W),
      (serve env .query (serve env (.upload file) s).2).1.written =
        [⟨400, .error "No genes found in context"⟩]) ∧
    (serve (stubEnv 200) (.upload (some ⟨some "gene_id\nBRCA1\nTP53"⟩)) (Net.init 0)).1.written =
      [⟨200, .uploaded "File uploaded successfully" ["BRCA1", "TP53"]⟩] ∧
    (serve (stubEnv 200) .query
      (serve (stubEnv 200) (.upload (some ⟨some "gene_id\nBRCA1\nTP53"⟩)) (Net.init 0)).2
      ).1.written = [⟨400, .error "No genes found in context"⟩] ∧
    (queryHandler (stubEnv 200) (Context.withKeys [("genes", ["BRCA1", "TP53"])])
      (Net.init 0)).1.written =
      [⟨200, .results [⟨"BRCA1", "x", "info1"⟩, ⟨"TP53", "y", "info2"⟩]⟩] := by
  refine ⟨?_, by decide, by decide, by decide⟩
  intro W env file s
  simp [serve, queryHandler, Context.Get, Context.JSON]

end QueryAP
